import Mathlib

/-!
Verification of the book viewer and chapter-generation logic of the
Robo AI Auto Book Generator.

Documents are modelled as `List Char` (the `.data` of a string).  The
definitions below are shallow embeddings of the TypeScript source:

* `paginate` embeds the `pages` computation of `StorybookViewer.tsx`
  (section split on level-2 headings, windowed splitting at
  `CHARS_PER_PAGE`, fallback page, cover sentinel pages).
* `createSlug` / `handleExportMd` / `docChildren` embed the export logic.
* `navStep` embeds the keyboard and button page navigation.
* `handleGenerateAllChapters` embeds the sequential chapter-generation
  loop of `geminiService.ts`, with the generation service abstracted as
  an oracle.
-/

set_option maxRecDepth 100000

namespace BookGen

/-- Embeds `const CHARS_PER_PAGE = 2000`. -/
def CHARS_PER_PAGE : Nat := 2000

/-- The sentinel text put in front of cover pages: `IMAGE:` as in
`allPages.unshift('IMAGE:' + frontCoverUrl)`. -/
def imageMarker : List Char := ("IMAGE:").data

/-- The level-2 heading marker `## ` used by the section split regex and by
the DOCX exporter. -/
def headingMarker : List Char := ("## ").data

/-- The fallback page pushed when no pages were generated. -/
def fallbackText : List Char :=
  ("## Book Generation Failed\n\nThere was an issue generating the book content. Please close this view and try assembling it again.").data

/-- Characters treated as whitespace by JavaScript `String.prototype.trim`:
tab, line feed, vertical tab, form feed, carriage return, space, no-break
space, the Unicode space separators, the line and paragraph separators, and
the zero-width no-break space. -/
def isJsWhitespace (c : Char) : Bool :=
  c = ' ' || c = '\t' || c = '\n' || c.toNat = 0xD || c.toNat = 0xB || c.toNat = 0xC ||
  c.toNat = 0xA0 || c.toNat = 0x1680 ||
  (0x2000 <= c.toNat && c.toNat <= 0x200A) ||
  c.toNat = 0x2028 || c.toNat = 0x2029 || c.toNat = 0x202F || c.toNat = 0x205F ||
  c.toNat = 0x3000 || c.toNat = 0xFEFF

/-- Embeds JavaScript `s.trim()`: strip leading and trailing whitespace. -/
def jsTrim (s : List Char) : List Char :=
  ((s.dropWhile isJsWhitespace).reverse.dropWhile isJsWhitespace).reverse

/-- Line terminators after which the multiline anchor `^` matches in a
JavaScript regular expression: line feed, carriage return, line separator
and paragraph separator. -/
def isLineTerminator (c : Char) : Bool :=
  c = '\n' || c.toNat = 0xD || c.toNat = 0x2028 || c.toNat = 0x2029

/-- Positions at which `content.split(/(?=^## )/m)` cuts the document: a
position strictly after the start, preceded by a line terminator, at which
the text `## ` begins.  (The zero-width match at position 0 produces no cut
in JavaScript's split algorithm.) -/
def isSplitPoint (s : List Char) (i : Nat) : Bool :=
  decide (0 < i) &&
    (match s.get? (i - 1) with
     | some c => isLineTerminator c
     | none => false) &&
    headingMarker.isPrefixOf (s.drop i)

/-- All cut positions of the section split, in increasing order. -/
def cutPoints (s : List Char) : List Nat :=
  (List.range s.length).filter (isSplitPoint s)

/-- Slices of `s` between consecutive bounds, starting at `start`; the final
slice runs to the end of `s`. -/
def slicesAux (s : List Char) : List Nat → Nat → List (List Char)
  | [], start => [s.drop start]
  | b :: bs, start => (s.drop start).take (b - start) :: slicesAux s bs b

/-- Embeds `content.split(/(?=^## )/m)`: cut the document at every heading
split point. -/
def splitSections (s : List Char) : List (List Char) :=
  slicesAux s (cutPoints s) 0

/-- Embeds `s.lastIndexOf(c, fromIndex)`: the greatest index `≤ fromIndex` at
which character `c` occurs, and `-1` if there is none. -/
def lastIndexOfFrom (s : List Char) (c : Char) : Nat → Int
  | 0 => if s.get? 0 = some c then 0 else -1
  | i + 1 => if s.get? (i + 1) = some c then ((i + 1 : Nat) : Int) else lastIndexOfFrom s c i

/-- The end position chosen for the page starting at `currentPos` in section
`s`: the hard window end `currentPos + CHARS_PER_PAGE`, moved to just past
the nearest preceding space or newline when that break point lies strictly
after `currentPos`.  Embeds the body of the windowed splitting loop. -/
def choosePageEnd (s : List Char) (currentPos : Nat) : Nat :=
  let endPos := currentPos + CHARS_PER_PAGE
  if endPos < s.length then
    let lastSpace := lastIndexOfFrom s ' ' endPos
    let lastNewline := lastIndexOfFrom s '\n' endPos
    let breakPoint := max lastSpace lastNewline
    if (currentPos : Int) < breakPoint then breakPoint.toNat + 1 else endPos
  else endPos

/-- The windowed splitting loop
`while (currentPos < sectionContent.length) { ... }`, written with an
explicit fuel parameter; `none` means the fuel ran out.  Each iteration
emits `sectionContent.substring(currentPos, endPos)` and advances the
cursor to `endPos`. -/
def paginateSection (fuel : Nat) (s : List Char) (pos : Nat) : Option (List (List Char)) :=
  match fuel with
  | 0 => if pos < s.length then none else some []
  | fuel + 1 =>
    if pos < s.length then
      let endPos := choosePageEnd s pos
      match paginateSection fuel s endPos with
      | some rest => some ((s.drop pos).take (endPos - pos) :: rest)
      | none => none
    else some []

/-- The pages of one section; fuel `s.length` always suffices because the
cursor strictly advances. -/
def paginateSectionT (s : List Char) : List (List Char) :=
  (paginateSection s.length s 0).getD []

/-- Embeds the whole `pages` computation of `StorybookViewer.tsx`: split the
document into sections, drop sections that are blank after trimming, run the
windowed splitting loop on each, fall back to a placeholder page when no
page was produced, and add the cover sentinel pages.  An absent or empty
cover URL (falsy in JavaScript) adds no page. -/
def paginate (content : List Char) (frontCoverUrl backCoverUrl : Option (List Char)) :
    List (List Char) :=
  let generatedPages : List (List Char) :=
    if content.isEmpty then []
    else
      (((splitSections content).filter fun sec => !(jsTrim sec).isEmpty).map
        paginateSectionT).flatten
  let generatedPages := if generatedPages.isEmpty then [fallbackText] else generatedPages
  let allPages :=
    match frontCoverUrl with
    | some u => if u.isEmpty then generatedPages else (imageMarker ++ u) :: generatedPages
    | none => generatedPages
  match backCoverUrl with
  | some u => if u.isEmpty then allPages else allPages ++ [imageMarker ++ u]
  | none => allPages

/-- Embeds `pageContent.startsWith('IMAGE:')`, the test used by
`renderPageContent` and by the PDF export branch to decide whether a page is
rendered as a base64 image. -/
def isImagePage (pageContent : List Char) : Bool :=
  imageMarker.isPrefixOf pageContent

/-! ### Page navigation -/

/-- Navigation inputs: the two arrow keys handled by `handleKeyDown` and the
Previous/Next buttons. -/
inductive NavEvent
  | arrowLeft
  | arrowRight
  | prevButton
  | nextButton
deriving DecidableEq

/-- One navigation step.  Arrow keys embed the guarded updates of
`handleKeyDown`; the buttons embed `setCurrentPage(p => p ± 1)` guarded by
the `disabled` conditions (`currentPage === 0`, resp.
`currentPage >= totalPages - 1`). -/
def navStep (totalPages currentPage : Nat) : NavEvent → Nat
  | .arrowRight => if currentPage < totalPages - 1 then currentPage + 1 else currentPage
  | .arrowLeft => if 0 < currentPage then currentPage - 1 else currentPage
  | .prevButton => if currentPage = 0 then currentPage else currentPage - 1
  | .nextButton => if totalPages - 1 ≤ currentPage then currentPage else currentPage + 1

/-- The page index reached after a sequence of navigation events. -/
def navRun (totalPages currentPage : Nat) (events : List NavEvent) : Nat :=
  events.foldl (navStep totalPages) currentPage

/-! ### Export: slug, Markdown, DOCX -/

/-- Slug characters: the class `[a-z0-9]` of the slug regex. -/
def isSlugChar (c : Char) : Bool :=
  ('a' ≤ c && c ≤ 'z') || ('0' ≤ c && c ≤ '9')

/-- Embeds `.replace(/[^a-z0-9]+/g, '-')`: every maximal run of characters
outside `[a-z0-9]` becomes a single hyphen.  The flag records whether the
previous character was part of such a run. -/
def collapseNonAlnum (inRun : Bool) : List Char → List Char
  | [] => []
  | c :: rest =>
    if isSlugChar c then c :: collapseNonAlnum false rest
    else if inRun then collapseNonAlnum true rest
    else '-' :: collapseNonAlnum true rest

/-- Embeds `.replace(/(^-|-$)/g, '')` on a run-collapsed string: remove one
leading and one trailing hyphen. -/
def stripLeadDash : List Char → List Char
  | '-' :: rest => rest
  | l => l

/-- Embeds `createSlug`: lower-case the title, collapse non-alphanumeric
runs to hyphens, and strip a leading and a trailing hyphen.  ASCII
lower-casing models `String.prototype.toLowerCase` (the titles considered
here are ASCII). -/
def createSlug (text : List Char) : List Char :=
  (stripLeadDash (stripLeadDash (collapseNonAlnum false (text.map Char.toLower))).reverse).reverse

/-- Embeds the Markdown branch of `handleExport`: the blob is the raw
document and the download name is the slug with extension `.md`. -/
def handleExportMd (title content : List Char) : List Char × List Char :=
  (content, createSlug title ++ (".md").data)

/-- The paragraph styles used by the DOCX exporter (`docx` heading levels). -/
inductive HeadingLevelT
  | TITLE
  | HEADING_2
  | HEADING_3
deriving DecidableEq

/-- A paragraph of the exported word-processing document: its text and an
optional heading style. -/
structure DocPara where
  text : List Char
  heading : Option HeadingLevelT
deriving DecidableEq

/-- Embeds `content.split('\n')`. -/
def splitOnNl : List Char → List (List Char)
  | [] => [[]]
  | c :: rest =>
    if c = '\n' then [] :: splitOnNl rest
    else
      match splitOnNl rest with
      | [] => [[c]]
      | p :: ps => (c :: p) :: ps

/-- Embeds the DOCX branch of `handleExport`: a title paragraph, a subtitle
and an author paragraph when present (and non-empty, as JavaScript
truthiness requires), then one pass over the document's lines pushing a
stripped heading paragraph for `## ` lines, a body paragraph for other
lines with non-blank trim, and nothing for blank lines. -/
def docChildren (title : List Char) (subtitle author : Option (List Char))
    (content : List Char) : List DocPara :=
  let dc : List DocPara := [⟨title, some HeadingLevelT.TITLE⟩]
  let dc :=
    match subtitle with
    | some s => if s.isEmpty then dc else dc ++ [⟨s, some HeadingLevelT.HEADING_2⟩]
    | none => dc
  let dc :=
    match author with
    | some a => if a.isEmpty then dc else dc ++ [⟨("By ").data ++ a, some HeadingLevelT.HEADING_3⟩]
    | none => dc
  (splitOnNl content).foldl
    (fun acc line =>
      if headingMarker.isPrefixOf line then acc ++ [⟨line.drop 3, some HeadingLevelT.HEADING_2⟩]
      else if (jsTrim line).isEmpty then acc
      else acc ++ [⟨line, none⟩])
    dc

/-- Modelled from the spec's description of the DOCX construction: the
paragraph a single line contributes, if any. -/
def lineParagraph (line : List Char) : Option DocPara :=
  if headingMarker.isPrefixOf line then some ⟨line.drop 3, some HeadingLevelT.HEADING_2⟩
  else if (jsTrim line).isEmpty then none
  else some ⟨line, none⟩

/-- Modelled from the spec's description of the DOCX construction: title
paragraph, then optional subtitle and author paragraphs, then the
paragraphs contributed by the document's lines in order. -/
def docChildrenSpec (title : List Char) (subtitle author : Option (List Char))
    (content : List Char) : List DocPara :=
  ⟨title, some HeadingLevelT.TITLE⟩ ::
    ((match subtitle with
      | some s => if s.isEmpty then [] else [⟨s, some HeadingLevelT.HEADING_2⟩]
      | none => []) ++
     (match author with
      | some a => if a.isEmpty then [] else [⟨("By ").data ++ a, some HeadingLevelT.HEADING_3⟩]
      | none => []) ++
     (splitOnNl content).filterMap lineParagraph)

/-! ### Generate all chapters -/

/-- Chapter status, as in `types.ts`. -/
inductive ChapterStatus
  | pending
  | generating
  | done
deriving DecidableEq

/-- A chapter, as in `types.ts`. -/
structure Chapter where
  title : List Char
  content : List Char
  status : ChapterStatus
deriving DecidableEq

/-- The generation service as an oracle: given the index of the chapter
being generated, its title, and the previous content passed for
continuity, it either returns chapter text or fails. -/
def GenService : Type :=
  Nat → List Char → Option (List Char) → Except Unit (List Char)

/-- The loop body of `handleGenerateAllChapters`: walk the chapters in
order; skip chapters already done (updating the continuity content); for
the others call the service; on success mark the chapter done with the
returned content; on failure set the chapter back to pending, record the
failing index as the surfaced error, and stop.  The third component lists
the indices for which a generation request was issued, in order. -/
def genAllGo (svc : GenService) (continueFromPrevious : Bool) :
    List Chapter → Nat → Option (List Char) → List Chapter × Option Nat × List Nat
  | [], _, _ => ([], none, [])
  | ch :: rest, i, last =>
    if ch.status = ChapterStatus.done then
      let r := genAllGo svc continueFromPrevious rest (i + 1)
        (if continueFromPrevious then some ch.content else none)
      (ch :: r.1, r.2.1, r.2.2)
    else
      match svc i ch.title last with
      | Except.ok c =>
        let r := genAllGo svc continueFromPrevious rest (i + 1)
          (if continueFromPrevious then some c else none)
        ({ ch with status := ChapterStatus.done, content := c } :: r.1, r.2.1, i :: r.2.2)
      | Except.error _ =>
        ({ ch with status := ChapterStatus.pending } :: rest, some i, [i])

/-- Embeds `handleGenerateAllChapters`: run the sequential generation loop
from the first chapter with no continuity content. -/
def handleGenerateAllChapters (svc : GenService) (continueFromPrevious : Bool)
    (chapters : List Chapter) : List Chapter × Option Nat × List Nat :=
  genAllGo svc continueFromPrevious chapters 0 none

/-! ### Concrete documents used for witnesses and counterexamples -/

/-- A single-word document slightly longer than the window, with its only
space exactly at index `CHARS_PER_PAGE`: the backward search finds the
space at the window end itself, so the first page gets 2001 characters. -/
def overflowDoc : List Char :=
  List.replicate 1999 'a' ++ '\n' :: ' ' :: List.replicate 4 'b'

/-- A section that splits into two pages at a newline break. -/
def twoPageDoc : List Char :=
  List.replicate 1998 'a' ++ ' ' :: '\n' :: List.replicate 6 'b'

/-- The offset, within a section, at which page `i` of a page list starts:
the total length of the pages before it. -/
def pageStart (ps : List (List Char)) (i : Nat) : Nat :=
  ((ps.take i).map List.length).sum

/-! ### Lemmas about the backward break-character search -/

theorem CHARS_PER_PAGE_pos : 0 < CHARS_PER_PAGE := by norm_num [CHARS_PER_PAGE]

theorem lastIndexOfFrom_le (s : List Char) (c : Char) : ∀ i, lastIndexOfFrom s c i ≤ (i : Int) := by
  intro i
  induction i with
  | zero =>
    simp only [lastIndexOfFrom]
    split <;> norm_num
  | succ n ih =>
    simp only [lastIndexOfFrom]
    split
    · exact le_refl _
    · exact le_trans ih (by exact_mod_cast Nat.le_succ n)

theorem lastIndexOfFrom_mem (s : List Char) (c : Char) :
    ∀ i, 0 ≤ lastIndexOfFrom s c i → s.get? (lastIndexOfFrom s c i).toNat = some c := by
  intro i
  induction i with
  | zero =>
    simp only [lastIndexOfFrom]
    split
    · intro _
      simpa using ‹s.get? 0 = some c›
    · intro h
      norm_num at h
  | succ n ih =>
    simp only [lastIndexOfFrom]
    split
    · intro _
      simpa using ‹s.get? (n + 1) = some c›
    · exact ih

theorem lastIndexOfFrom_complete (s : List Char) (c : Char) :
    ∀ i j, j ≤ i → s.get? j = some c → (j : Int) ≤ lastIndexOfFrom s c i := by
  intro i
  induction i with
  | zero =>
    intro j hj hg
    have hj0 : j = 0 := Nat.le_zero.mp hj
    subst hj0
    simp only [lastIndexOfFrom]
    rw [if_pos hg]
    norm_num
  | succ n ih =>
    intro j hj hg
    by_cases h : s.get? (n + 1) = some c
    · simp only [lastIndexOfFrom, if_pos h]
      exact_mod_cast hj
    · simp only [lastIndexOfFrom, if_neg h]
      have hj' : j ≤ n := by
        by_contra hc
        have hje : j = n + 1 := by omega
        exact h (hje ▸ hg)
      exact ih j hj' hg

/-! ### Lemmas about the chosen page end -/

theorem choosePageEnd_pos_lt (s : List Char) (pos : Nat) : pos < choosePageEnd s pos := by
  unfold choosePageEnd
  simp only
  split
  · split
    · rename_i hbp
      omega
    · have := CHARS_PER_PAGE_pos
      omega
  · have := CHARS_PER_PAGE_pos
    omega

theorem choosePageEnd_le (s : List Char) (pos : Nat) :
    choosePageEnd s pos ≤ pos + CHARS_PER_PAGE + 1 := by
  unfold choosePageEnd
  simp only
  split
  · split
    · rename_i hbp
      have h1 := lastIndexOfFrom_le s ' ' (pos + CHARS_PER_PAGE)
      have h2 := lastIndexOfFrom_le s '\n' (pos + CHARS_PER_PAGE)
      have h3 : max (lastIndexOfFrom s ' ' (pos + CHARS_PER_PAGE))
          (lastIndexOfFrom s '\n' (pos + CHARS_PER_PAGE)) ≤ ((pos + CHARS_PER_PAGE : Nat) : Int) :=
        max_le h1 h2
      omega
    · omega
  · omega

/-! ### Basic lemmas about the splitting loop -/

theorem paginateSection_stop {fuel : Nat} {s : List Char} {pos : Nat} (h : ¬ pos < s.length) :
    paginateSection fuel s pos = some [] := by
  cases fuel <;> simp [paginateSection, h]

theorem paginateSection_isSome :
    ∀ (fuel : Nat) (s : List Char) (pos : Nat), s.length ≤ pos + fuel →
      (paginateSection fuel s pos).isSome = true := by
  intro fuel
  induction fuel with
  | zero =>
    intro s pos h
    have hp : ¬ pos < s.length := by omega
    simp [paginateSection_stop hp]
  | succ n ih =>
    intro s pos h
    by_cases hp : pos < s.length
    · have h2 : s.length ≤ choosePageEnd s pos + n := by
        have := choosePageEnd_pos_lt s pos
        omega
      have h3 := ih s (choosePageEnd s pos) h2
      simp only [paginateSection, if_pos hp]
      cases hrec : paginateSection n s (choosePageEnd s pos) with
      | none => rw [hrec] at h3; simp at h3
      | some rest => simp
    · simp [paginateSection_stop hp]

theorem paginateSectionT_eq (s : List Char) :
    paginateSection s.length s 0 = some (paginateSectionT s) := by
  have h := paginateSection_isSome s.length s 0 (by omega)
  cases hrec : paginateSection s.length s 0 with
  | none => rw [hrec] at h; simp at h
  | some ps => simp [paginateSectionT, hrec]

theorem paginateSection_arg_lt {fuel : Nat} {s : List Char} {pos : Nat} {ps : List (List Char)}
    (h : paginateSection fuel s pos = some ps) (hne : ps ≠ []) : pos < s.length := by
  by_contra hp
  rw [paginateSection_stop hp] at h
  exact hne (Option.some_injective _ h).symm

theorem paginateSection_flatten :
    ∀ (fuel : Nat) (s : List Char) (pos : Nat) (ps : List (List Char)),
      paginateSection fuel s pos = some ps → ps.flatten = s.drop pos := by
  intro fuel
  induction fuel with
  | zero =>
    intro s pos ps h
    simp only [paginateSection] at h
    split at h
    · exact absurd h (by simp)
    · cases h
      rename_i hp
      simp [List.drop_eq_nil_of_le (Nat.le_of_not_lt hp)]
  | succ n ih =>
    intro s pos ps h
    by_cases hp : pos < s.length
    · simp only [paginateSection, if_pos hp] at h
      cases hrec : paginateSection n s (choosePageEnd s pos) with
      | none => rw [hrec] at h; exact absurd h (by simp)
      | some rest =>
        rw [hrec] at h
        cases h
        have hrest := ih s (choosePageEnd s pos) rest hrec
        have hpe : pos ≤ choosePageEnd s pos := Nat.le_of_lt (choosePageEnd_pos_lt s pos)
        simp only [List.flatten_cons, hrest]
        rw [show s.drop (choosePageEnd s pos) = (s.drop pos).drop (choosePageEnd s pos - pos) by
          rw [List.drop_drop]
          congr 1
          omega]
        exact List.take_append_drop _ _
    · rw [paginateSection_stop hp] at h
      cases h
      simp [List.drop_eq_nil_of_le (Nat.le_of_not_lt hp)]

theorem paginateSectionT_flatten (s : List Char) : (paginateSectionT s).flatten = s := by
  have h := paginateSection_flatten s.length s 0 (paginateSectionT s) (paginateSectionT_eq s)
  simpa using h

theorem paginateSection_page_le :
    ∀ (fuel : Nat) (s : List Char) (pos : Nat) (ps : List (List Char)),
      paginateSection fuel s pos = some ps →
      ∀ p ∈ ps, p.length ≤ CHARS_PER_PAGE + 1 := by
  intro fuel
  induction fuel with
  | zero =>
    intro s pos ps h p hp
    simp only [paginateSection] at h
    split at h
    · exact absurd h (by simp)
    · cases h
      simp at hp
  | succ n ih =>
    intro s pos ps h p hp
    by_cases hpos : pos < s.length
    · simp only [paginateSection, if_pos hpos] at h
      cases hrec : paginateSection n s (choosePageEnd s pos) with
      | none => rw [hrec] at h; exact absurd h (by simp)
      | some rest =>
        rw [hrec] at h
        cases h
        rcases List.mem_cons.mp hp with h1 | h1
        · subst h1
          have h2 := choosePageEnd_le s pos
          have h3 : ((s.drop pos).take (choosePageEnd s pos - pos)).length ≤
              choosePageEnd s pos - pos := List.length_take_le _ _
          omega
        · exact ih s (choosePageEnd s pos) rest hrec p h1
    · rw [paginateSection_stop hpos] at h
      cases h
      simp at hp

/-! ### Lemmas about the section split -/

theorem slicesAux_flatten (s : List Char) :
    ∀ (bs : List Nat) (start : Nat), List.Pairwise (· < ·) bs → (∀ b ∈ bs, start ≤ b) →
      (slicesAux s bs start).flatten = s.drop start := by
  intro bs
  induction bs with
  | nil =>
    intro start _ _
    simp [slicesAux]
  | cons b bs ih =>
    intro start hp hs
    have hpb := List.pairwise_cons.mp hp
    have hsb : start ≤ b := hs b (by simp)
    simp only [slicesAux, List.flatten_cons]
    rw [ih b hpb.2 (fun b' hb' => Nat.le_of_lt (hpb.1 b' hb'))]
    rw [show s.drop b = (s.drop start).drop (b - start) by
      rw [List.drop_drop]
      congr 1
      omega]
    exact List.take_append_drop _ _

theorem cutPoints_sorted (s : List Char) : List.Pairwise (· < ·) (cutPoints s) :=
  (List.pairwise_lt_range s.length).filter _

theorem splitSections_flatten (s : List Char) : (splitSections s).flatten = s := by
  unfold splitSections
  rw [slicesAux_flatten s (cutPoints s) 0 (cutPoints_sorted s) (fun b _ => Nat.zero_le b)]
  simp

/-! ### Lemmas about the trim-based section filter -/

theorem jsTrim_eq_nil_iff {s : List Char} :
    jsTrim s = [] ↔ ∀ c ∈ s, isJsWhitespace c = true := by
  unfold jsTrim
  rw [List.reverse_eq_nil_iff, List.dropWhile_eq_nil_iff]
  constructor
  · intro h c hc
    by_contra hw
    have hne : s.dropWhile isJsWhitespace ≠ [] := by
      intro hnil
      exact hw (List.dropWhile_eq_nil_iff.mp hnil c hc)
    have hhead := List.head_dropWhile_not isJsWhitespace s hne
    have hmem : (s.dropWhile isJsWhitespace).head hne ∈
        (s.dropWhile isJsWhitespace).reverse := by
      rw [List.mem_reverse]
      exact List.head_mem hne
    have htrue := h _ hmem
    rw [hhead] at htrue
    cases htrue
  · intro h x hx
    exact h x ((List.dropWhile_sublist isJsWhitespace).mem (List.mem_reverse.mp hx))

theorem jsTrim_isEmpty_eq_false_iff {s : List Char} :
    (jsTrim s).isEmpty = false ↔ ∃ c ∈ s, isJsWhitespace c = false := by
  rw [List.isEmpty_eq_false]
  constructor
  · intro h
    by_contra hc
    push_neg at hc
    exact h (jsTrim_eq_nil_iff.mpr (fun c hcs => by
      have := hc c hcs
      revert this
      cases isJsWhitespace c <;> simp))
  · rintro ⟨c, hcs, hcw⟩ hnil
    rw [jsTrim_eq_nil_iff] at hnil
    rw [hnil c hcs] at hcw
    cases hcw

theorem pageStart_zero (ps : List (List Char)) : pageStart ps 0 = 0 := by
  simp [pageStart]

theorem pageStart_cons_succ (p : List Char) (ps : List (List Char)) (i : Nat) :
    pageStart (p :: ps) (i + 1) = p.length + pageStart ps i := by
  simp [pageStart]

/-! ### The boundary-character invariant of the splitting loop -/

theorem choosePageEnd_of_break {s : List Char} {pos : Nat}
    (hw : pos + CHARS_PER_PAGE < s.length)
    (hbp : (pos : Int) < max (lastIndexOfFrom s ' ' (pos + CHARS_PER_PAGE))
      (lastIndexOfFrom s '\n' (pos + CHARS_PER_PAGE))) :
    choosePageEnd s pos = (max (lastIndexOfFrom s ' ' (pos + CHARS_PER_PAGE))
      (lastIndexOfFrom s '\n' (pos + CHARS_PER_PAGE))).toNat + 1 := by
  simp only [choosePageEnd]
  rw [if_pos hw, if_pos hbp]

theorem choosePageEnd_of_nobreak {s : List Char} {pos : Nat}
    (hw : pos + CHARS_PER_PAGE < s.length)
    (hbp : ¬ (pos : Int) < max (lastIndexOfFrom s ' ' (pos + CHARS_PER_PAGE))
      (lastIndexOfFrom s '\n' (pos + CHARS_PER_PAGE))) :
    choosePageEnd s pos = pos + CHARS_PER_PAGE := by
  simp only [choosePageEnd]
  rw [if_pos hw, if_neg hbp]

theorem choosePageEnd_of_far {s : List Char} {pos : Nat}
    (hw : ¬ pos + CHARS_PER_PAGE < s.length) :
    choosePageEnd s pos = pos + CHARS_PER_PAGE := by
  simp only [choosePageEnd]
  rw [if_neg hw]

theorem getLast?_take_drop (s : List Char) (pos n : Nat) (h1 : 0 < n)
    (h2 : pos + n ≤ s.length) :
    ((s.drop pos).take n).getLast? = s.get? (pos + n - 1) := by
  rw [List.getLast?_eq_getElem?]
  have hlen : ((s.drop pos).take n).length = n := by
    rw [List.length_take, List.length_drop]
    omega
  rw [hlen]
  rw [List.getElem?_take_of_lt (show n - 1 < n by omega)]
  rw [List.getElem?_drop]
  rw [List.get?_eq_getElem?]
  congr 1
  omega

theorem paginateSection_boundary :
    ∀ (fuel : Nat) (s : List Char) (pos : Nat) (ps : List (List Char)),
      paginateSection fuel s pos = some ps →
      ∀ i, i + 1 < ps.length →
        (∃ c, (ps.getD i []).getLast? = some c ∧ (c = ' ' ∨ c = '\n')) ∨
        ((ps.getD i []).length = CHARS_PER_PAGE ∧
          ∀ j, pos + pageStart ps i < j → j ≤ pos + pageStart ps i + CHARS_PER_PAGE →
            s.get? j ≠ some ' ' ∧ s.get? j ≠ some '\n') := by
  intro fuel
  induction fuel with
  | zero =>
    intro s pos ps h i hi
    simp only [paginateSection] at h
    split at h
    · exact absurd h (by simp)
    · cases h
      simp at hi
  | succ n ih =>
    intro s pos ps h i hi
    by_cases hpos : pos < s.length
    · simp only [paginateSection, if_pos hpos] at h
      cases hrec : paginateSection n s (choosePageEnd s pos) with
      | none => rw [hrec] at h; exact absurd h (by simp)
      | some rest =>
        rw [hrec] at h
        cases h
        cases i with
        | zero =>
          have hrne : rest ≠ [] := by
            intro hnil
            subst hnil
            simp at hi
          have hel : choosePageEnd s pos < s.length := paginateSection_arg_lt hrec hrne
          by_cases hw : pos + CHARS_PER_PAGE < s.length
          · by_cases hbp : (pos : Int) < max (lastIndexOfFrom s ' ' (pos + CHARS_PER_PAGE))
              (lastIndexOfFrom s '\n' (pos + CHARS_PER_PAGE))
            · left
              have hee := choosePageEnd_of_break hw hbp
              have hbp0 : (0 : Int) ≤ max (lastIndexOfFrom s ' ' (pos + CHARS_PER_PAGE))
                  (lastIndexOfFrom s '\n' (pos + CHARS_PER_PAGE)) :=
                le_trans (Int.natCast_nonneg pos) (le_of_lt hbp)
              have hbple : max (lastIndexOfFrom s ' ' (pos + CHARS_PER_PAGE))
                  (lastIndexOfFrom s '\n' (pos + CHARS_PER_PAGE)) ≤
                    ((pos + CHARS_PER_PAGE : Nat) : Int) :=
                max_le (lastIndexOfFrom_le s ' ' _) (lastIndexOfFrom_le s '\n' _)
              have hple := choosePageEnd_pos_lt s pos
              have hele : choosePageEnd s pos ≤ s.length := by omega
              rw [List.getD_cons_zero]
              rw [getLast?_take_drop s pos (choosePageEnd s pos - pos) (by omega) (by omega)]
              have hidx : pos + (choosePageEnd s pos - pos) - 1 =
                  (max (lastIndexOfFrom s ' ' (pos + CHARS_PER_PAGE))
                    (lastIndexOfFrom s '\n' (pos + CHARS_PER_PAGE))).toNat := by
                omega
              rw [hidx]
              rcases max_choice (lastIndexOfFrom s ' ' (pos + CHARS_PER_PAGE))
                  (lastIndexOfFrom s '\n' (pos + CHARS_PER_PAGE)) with hc | hc
              · refine ⟨' ', ?_, Or.inl rfl⟩
                rw [hc]
                exact lastIndexOfFrom_mem s ' ' _ (by rw [← hc]; exact hbp0)
              · refine ⟨'\n', ?_, Or.inr rfl⟩
                rw [hc]
                exact lastIndexOfFrom_mem s '\n' _ (by rw [← hc]; exact hbp0)
            · right
              have hee := choosePageEnd_of_nobreak hw hbp
              push_neg at hbp
              constructor
              · rw [List.getD_cons_zero]
                rw [List.length_take, List.length_drop]
                omega
              · intro j hj1 hj2
                rw [pageStart_zero] at hj1 hj2
                constructor
                · intro hsp
                  have hcomp := lastIndexOfFrom_complete s ' ' (pos + CHARS_PER_PAGE) j
                    (by omega) hsp
                  have hle : lastIndexOfFrom s ' ' (pos + CHARS_PER_PAGE) ≤
                      max (lastIndexOfFrom s ' ' (pos + CHARS_PER_PAGE))
                        (lastIndexOfFrom s '\n' (pos + CHARS_PER_PAGE)) := le_max_left _ _
                  omega
                · intro hsp
                  have hcomp := lastIndexOfFrom_complete s '\n' (pos + CHARS_PER_PAGE) j
                    (by omega) hsp
                  have hle : lastIndexOfFrom s '\n' (pos + CHARS_PER_PAGE) ≤
                      max (lastIndexOfFrom s ' ' (pos + CHARS_PER_PAGE))
                        (lastIndexOfFrom s '\n' (pos + CHARS_PER_PAGE)) := le_max_right _ _
                  omega
          · exfalso
            have hee := choosePageEnd_of_far hw
            omega
        | succ i =>
          have hlen : i + 1 < rest.length := by
            simp only [List.length_cons] at hi
            omega
          have hrne : rest ≠ [] := by
            intro hnil
            subst hnil
            simp at hlen
          have hel : choosePageEnd s pos ≤ s.length :=
            le_of_lt (paginateSection_arg_lt hrec hrne)
          have IH := ih s (choosePageEnd s pos) rest hrec i hlen
          have hple := choosePageEnd_pos_lt s pos
          have hplen : ((s.drop pos).take (choosePageEnd s pos - pos)).length =
              choosePageEnd s pos - pos := by
            rw [List.length_take, List.length_drop]
            omega
          have hps : pos +
              pageStart ((s.drop pos).take (choosePageEnd s pos - pos) :: rest) (i + 1) =
              choosePageEnd s pos + pageStart rest i := by
            rw [pageStart_cons_succ, hplen]
            omega
          rw [List.getD_cons_succ]
          rcases IH with hL | ⟨hlen2, hR⟩
          · exact Or.inl hL
          · refine Or.inr ⟨hlen2, ?_⟩
            intro j hj1 hj2
            rw [hps] at hj1 hj2
            exact hR j hj1 hj2
    · rw [paginateSection_stop hpos] at h
      cases h
      simp at hi

/-! ### Lemmas about the full pagination -/

theorem flatten_map_paginateSectionT (secs : List (List Char)) :
    ((secs.map paginateSectionT).flatten).flatten = secs.flatten := by
  induction secs with
  | nil => simp
  | cons sec rest ih =>
    simp only [List.map_cons, List.flatten_cons, List.flatten_append]
    rw [paginateSectionT_flatten, ih]

theorem mem_paginateSectionT_length_le {s p : List Char} (hp : p ∈ paginateSectionT s) :
    p.length ≤ CHARS_PER_PAGE + 1 :=
  paginateSection_page_le s.length s 0 (paginateSectionT s) (paginateSectionT_eq s) p hp

theorem fallbackText_length_le : fallbackText.length ≤ CHARS_PER_PAGE + 1 := by decide

theorem splitSections_of_no_hash {s : List Char} (h : ¬ '#' ∈ s) : splitSections s = [s] := by
  have hcp : cutPoints s = [] := by
    rw [cutPoints, List.filter_eq_nil_iff]
    intro i _ hsp
    rw [isSplitPoint, Bool.and_eq_true, Bool.and_eq_true] at hsp
    have hpref := hsp.2
    rw [List.isPrefixOf_iff_prefix] at hpref
    exact h (List.mem_of_mem_drop (hpref.sublist.mem (show '#' ∈ headingMarker by decide)))
  rw [splitSections, hcp]
  simp [slicesAux]

theorem paginate_none_none_eq_of_kept (D : List Char)
    (hws : ∀ sec ∈ splitSections D, (jsTrim sec).isEmpty = false) :
    (splitSections D).filter (fun sec => !(jsTrim sec).isEmpty) = splitSections D := by
  rw [List.filter_eq_self]
  intro a ha
  rw [Bool.not_eq_true']
  exact hws a ha

/-! ### Claim C1 -/

/-- C1 (amended): pagination is lossless for every document that is
non-empty and all of whose heading-delimited chunks contain a
non-whitespace character: with no covers supplied, the concatenation of
all pages of `paginate` reproduces the document exactly. -/
theorem pagination_lossless (D : List Char) (hne : D ≠ [])
    (hws : ∀ sec ∈ splitSections D, (jsTrim sec).isEmpty = false) :
    (paginate D none none).flatten = D := by
  have hDE : D.isEmpty = false := by
    rw [List.isEmpty_eq_false]
    exact hne
  have hfilter := paginate_none_none_eq_of_kept D hws
  have hP : ((((splitSections D).filter fun sec => !(jsTrim sec).isEmpty).map
      paginateSectionT).flatten).flatten = D := by
    rw [hfilter, flatten_map_paginateSectionT, splitSections_flatten]
  have hPE : ((((splitSections D).filter fun sec => !(jsTrim sec).isEmpty).map
      paginateSectionT).flatten).isEmpty = false := by
    rw [List.isEmpty_eq_false]
    intro hnil
    rw [hnil] at hP
    exact hne hP.symm
  simp only [paginate, hDE, Bool.false_eq_true, if_false, hPE, if_false]
  exact hP

/-- C1 counterexample: for the empty document the claim fails: the
concatenation of the non-image pages of `paginate ''` is the non-empty
fallback placeholder, not the empty document. -/
theorem pagination_lossless_counterexample :
    ¬ (((paginate [] none none).filter fun p => !(isImagePage p)).flatten = ([] : List Char)) := by
  decide

/-- C1 witness: a concrete document satisfying the amended claim's
hypotheses. -/
theorem pagination_lossless_witness :
    ("abc").data ≠ [] ∧ (∀ sec ∈ splitSections ("abc").data, (jsTrim sec).isEmpty = false) ∧
    (paginate ("abc").data none none).flatten = ("abc").data :=
  ⟨by decide, by decide, pagination_lossless ("abc").data (by decide) (by decide)⟩

/-! ### Claim C2 -/

/-- C2: at every boundary between two consecutive pages of a section's
windowed splitting, either the character immediately before the boundary
is a space or a newline, or the page ends exactly at the hard window limit
`CHARS_PER_PAGE` past its start and no space or newline occurs in the
searched window strictly after the page's start. -/
theorem page_boundary_break (s : List Char) (i : Nat)
    (hi : i + 1 < (paginateSectionT s).length) :
    (∃ c, ((paginateSectionT s).getD i []).getLast? = some c ∧ (c = ' ' ∨ c = '\n')) ∨
    (((paginateSectionT s).getD i []).length = CHARS_PER_PAGE ∧
      ∀ j, pageStart (paginateSectionT s) i < j →
        j ≤ pageStart (paginateSectionT s) i + CHARS_PER_PAGE →
          s.get? j ≠ some ' ' ∧ s.get? j ≠ some '\n') := by
  have h := paginateSection_boundary s.length s 0 (paginateSectionT s)
    (paginateSectionT_eq s) i hi
  simpa using h

/-! ### Step lemmas for evaluating the loop on concrete long documents -/

theorem lastIndexOfFrom_hit (s : List Char) (c : Char) {i : Nat}
    (h : s.get? (i + 1) = some c) :
    lastIndexOfFrom s c (i + 1) = ((i + 1 : Nat) : Int) := by
  simp only [lastIndexOfFrom]
  rw [if_pos h]

theorem lastIndexOfFrom_skip (s : List Char) (c d : Char) {i : Nat}
    (h : s.get? (i + 1) = some d) (hne : d ≠ c) :
    lastIndexOfFrom s c (i + 1) = lastIndexOfFrom s c i := by
  simp only [lastIndexOfFrom]
  rw [if_neg (by rw [h]; simp [hne])]

theorem paginateSection_step {n : Nat} {s : List Char} {pos : Nat} (h : pos < s.length) :
    paginateSection (n + 1) s pos =
      match paginateSection n s (choosePageEnd s pos) with
      | some rest => some ((s.drop pos).take (choosePageEnd s pos - pos) :: rest)
      | none => none := by
  simp only [paginateSection, if_pos h]

theorem get?_replicate_append_right {x : Char} {m j : Nat} {l : List Char} (h : m ≤ j) :
    (List.replicate m x ++ l).get? j = l.get? (j - m) := by
  rw [List.get?_eq_getElem?, List.getElem?_append_right (by simpa using h)]
  simp [List.get?_eq_getElem?]

/-! ### Evaluation of the loop on `twoPageDoc` -/

theorem twoPageDoc_length : twoPageDoc.length = 2006 := by
  simp [twoPageDoc]

theorem twoPageDoc_get_2000 : twoPageDoc.get? (1999 + 1) = some 'b' := by
  rw [twoPageDoc, get?_replicate_append_right (by norm_num)]
  decide

theorem twoPageDoc_get_1999 : twoPageDoc.get? (1998 + 1) = some '\n' := by
  rw [twoPageDoc, get?_replicate_append_right (by norm_num)]
  decide

theorem twoPageDoc_get_1998 : twoPageDoc.get? (1997 + 1) = some ' ' := by
  rw [twoPageDoc, get?_replicate_append_right (by norm_num)]
  decide

theorem twoPageDoc_lastSpace : lastIndexOfFrom twoPageDoc ' ' 2000 = 1998 := by
  rw [show (2000 : Nat) = 1999 + 1 by norm_num,
    lastIndexOfFrom_skip twoPageDoc ' ' 'b' twoPageDoc_get_2000 (by decide)]
  rw [show (1999 : Nat) = 1998 + 1 by norm_num,
    lastIndexOfFrom_skip twoPageDoc ' ' '\n' twoPageDoc_get_1999 (by decide)]
  rw [show (1998 : Nat) = 1997 + 1 by norm_num,
    lastIndexOfFrom_hit twoPageDoc ' ' twoPageDoc_get_1998]
  norm_num

theorem twoPageDoc_lastNewline : lastIndexOfFrom twoPageDoc '\n' 2000 = 1999 := by
  rw [show (2000 : Nat) = 1999 + 1 by norm_num,
    lastIndexOfFrom_skip twoPageDoc '\n' 'b' twoPageDoc_get_2000 (by decide)]
  rw [show (1999 : Nat) = 1998 + 1 by norm_num,
    lastIndexOfFrom_hit twoPageDoc '\n' twoPageDoc_get_1999]
  norm_num

theorem twoPageDoc_choosePageEnd_0 : choosePageEnd twoPageDoc 0 = 2000 := by
  have harg : (0 : Nat) + CHARS_PER_PAGE = 2000 := by norm_num [CHARS_PER_PAGE]
  have hw : (0 : Nat) + CHARS_PER_PAGE < twoPageDoc.length := by
    rw [harg, twoPageDoc_length]
    norm_num
  have hbp : ((0 : Nat) : Int) < max (lastIndexOfFrom twoPageDoc ' ' (0 + CHARS_PER_PAGE))
      (lastIndexOfFrom twoPageDoc '\n' (0 + CHARS_PER_PAGE)) := by
    rw [harg, twoPageDoc_lastSpace, twoPageDoc_lastNewline]
    decide
  rw [choosePageEnd_of_break hw hbp, harg, twoPageDoc_lastSpace, twoPageDoc_lastNewline]
  decide

theorem twoPageDoc_choosePageEnd_2000 : choosePageEnd twoPageDoc 2000 = 4000 := by
  have hw : ¬ (2000 : Nat) + CHARS_PER_PAGE < twoPageDoc.length := by
    rw [twoPageDoc_length]
    norm_num [CHARS_PER_PAGE]
  rw [choosePageEnd_of_far hw]
  norm_num [CHARS_PER_PAGE]

theorem twoPageDoc_pages :
    paginateSectionT twoPageDoc =
      [(twoPageDoc.drop 0).take (2000 - 0), (twoPageDoc.drop 2000).take (4000 - 2000)] := by
  have h0 : paginateSection 2006 twoPageDoc 0 =
      some [(twoPageDoc.drop 0).take (2000 - 0), (twoPageDoc.drop 2000).take (4000 - 2000)] := by
    rw [show (2006 : Nat) = 2005 + 1 by norm_num,
      paginateSection_step (by rw [twoPageDoc_length]; norm_num)]
    rw [twoPageDoc_choosePageEnd_0]
    rw [show (2005 : Nat) = 2004 + 1 by norm_num,
      paginateSection_step (by rw [twoPageDoc_length]; norm_num)]
    rw [twoPageDoc_choosePageEnd_2000]
    rw [paginateSection_stop (by rw [twoPageDoc_length]; norm_num)]
  unfold paginateSectionT
  rw [twoPageDoc_length, h0]
  rfl

theorem twoPageDoc_two_pages : (paginateSectionT twoPageDoc).length = 2 := by
  rw [twoPageDoc_pages]
  rfl

/-! ### Evaluation of the loop on `overflowDoc` -/

theorem overflowDoc_length : overflowDoc.length = 2005 := by
  simp [overflowDoc]

theorem overflowDoc_get_2000 : overflowDoc.get? (1999 + 1) = some ' ' := by
  rw [overflowDoc, get?_replicate_append_right (by norm_num)]
  decide

theorem overflowDoc_get_1999 : overflowDoc.get? (1998 + 1) = some '\n' := by
  rw [overflowDoc, get?_replicate_append_right (by norm_num)]
  decide

theorem overflowDoc_lastSpace : lastIndexOfFrom overflowDoc ' ' 2000 = 2000 := by
  rw [show (2000 : Nat) = 1999 + 1 by norm_num,
    lastIndexOfFrom_hit overflowDoc ' ' overflowDoc_get_2000]
  norm_num

theorem overflowDoc_lastNewline : lastIndexOfFrom overflowDoc '\n' 2000 = 1999 := by
  rw [show (2000 : Nat) = 1999 + 1 by norm_num,
    lastIndexOfFrom_skip overflowDoc '\n' ' ' overflowDoc_get_2000 (by decide)]
  rw [show (1999 : Nat) = 1998 + 1 by norm_num,
    lastIndexOfFrom_hit overflowDoc '\n' overflowDoc_get_1999]
  norm_num

theorem overflowDoc_choosePageEnd_0 : choosePageEnd overflowDoc 0 = 2001 := by
  have harg : (0 : Nat) + CHARS_PER_PAGE = 2000 := by norm_num [CHARS_PER_PAGE]
  have hw : (0 : Nat) + CHARS_PER_PAGE < overflowDoc.length := by
    rw [harg, overflowDoc_length]
    norm_num
  have hbp : ((0 : Nat) : Int) < max (lastIndexOfFrom overflowDoc ' ' (0 + CHARS_PER_PAGE))
      (lastIndexOfFrom overflowDoc '\n' (0 + CHARS_PER_PAGE)) := by
    rw [harg, overflowDoc_lastSpace, overflowDoc_lastNewline]
    decide
  rw [choosePageEnd_of_break hw hbp, harg, overflowDoc_lastSpace, overflowDoc_lastNewline]
  decide

theorem overflowDoc_choosePageEnd_2001 : choosePageEnd overflowDoc 2001 = 4001 := by
  have hw : ¬ (2001 : Nat) + CHARS_PER_PAGE < overflowDoc.length := by
    rw [overflowDoc_length]
    norm_num [CHARS_PER_PAGE]
  rw [choosePageEnd_of_far hw]
  norm_num [CHARS_PER_PAGE]

theorem overflowDoc_pages :
    paginateSectionT overflowDoc =
      [(overflowDoc.drop 0).take (2001 - 0), (overflowDoc.drop 2001).take (4001 - 2001)] := by
  have h0 : paginateSection 2005 overflowDoc 0 =
      some [(overflowDoc.drop 0).take (2001 - 0), (overflowDoc.drop 2001).take (4001 - 2001)] := by
    rw [show (2005 : Nat) = 2004 + 1 by norm_num,
      paginateSection_step (by rw [overflowDoc_length]; norm_num)]
    rw [overflowDoc_choosePageEnd_0]
    rw [show (2004 : Nat) = 2003 + 1 by norm_num,
      paginateSection_step (by rw [overflowDoc_length]; norm_num)]
    rw [overflowDoc_choosePageEnd_2001]
    rw [paginateSection_stop (by rw [overflowDoc_length]; norm_num)]
  unfold paginateSectionT
  rw [overflowDoc_length, h0]
  rfl

theorem overflowDoc_no_hash : ¬ '#' ∈ overflowDoc := by
  rw [overflowDoc]
  intro h
  rcases List.mem_append.mp h with h1 | h1
  · exact absurd (List.eq_of_mem_replicate h1) (by decide)
  · rcases h1 with _ | ⟨_, h2⟩
    · rcases h2 with _ | ⟨_, h3⟩
      exact absurd (List.eq_of_mem_replicate h3) (by decide)

theorem overflowDoc_first_page_long :
    ((overflowDoc.drop 0).take (2001 - 0)).length = 2001 := by
  rw [List.length_take, List.length_drop, overflowDoc_length]
  norm_num

theorem paginate_overflowDoc :
    paginate overflowDoc none none = paginateSectionT overflowDoc := by
  have hsecs : splitSections overflowDoc = [overflowDoc] := splitSections_of_no_hash overflowDoc_no_hash
  have hws : (jsTrim overflowDoc).isEmpty = false := by
    rw [jsTrim_isEmpty_eq_false_iff]
    refine ⟨'a', ?_, by decide⟩
    rw [overflowDoc]
    exact List.mem_append.mpr (Or.inl (List.mem_replicate.mpr ⟨by norm_num, rfl⟩))
  have hDE : overflowDoc.isEmpty = false := by
    rw [List.isEmpty_eq_false]
    intro h
    have := overflowDoc_length
    rw [h] at this
    simp at this
  have hpagesne : (paginateSectionT overflowDoc).isEmpty = false := by
    rw [overflowDoc_pages]
    rfl
  unfold paginate
  simp only [hDE, Bool.false_eq_true, if_false, hsecs]
  rw [List.filter_cons, hws]
  simp [hpagesne]

/-! ### Claim C3 -/

/-- C3 (amended): every text page produced by `paginate` has at most
`CHARS_PER_PAGE + 1` characters: the backward search may land on a break
character at the hard window limit itself, and that break character is
included in the page. -/
theorem page_size_le (D : List Char) :
    ∀ p ∈ paginate D none none, p.length ≤ CHARS_PER_PAGE + 1 := by
  intro p hp
  unfold paginate at hp
  simp only at hp
  have hfb : p = fallbackText → p.length ≤ CHARS_PER_PAGE + 1 := fun h => h ▸ fallbackText_length_le
  by_cases hD : D.isEmpty = true
  · rw [if_pos hD] at hp
    simp at hp
    exact hfb hp
  · rw [if_neg hD] at hp
    by_cases hXE : ((((splitSections D).filter fun sec => !(jsTrim sec).isEmpty).map
        paginateSectionT).flatten).isEmpty = true
    · rw [if_pos hXE] at hp
      simp at hp
      exact hfb hp
    · rw [if_neg hXE] at hp
      rcases List.mem_flatten.mp hp with ⟨pages, hpages, hppages⟩
      rcases List.mem_map.mp hpages with ⟨sec, _, rfl⟩
      exact mem_paginateSectionT_length_le hppages

/-- C3 witness: a concrete page within the amended bound. -/
theorem page_size_le_witness :
    ("ab").data ∈ paginate ("ab").data none none ∧
      ("ab").data.length ≤ CHARS_PER_PAGE + 1 :=
  ⟨by decide, page_size_le ("ab").data ("ab").data (by decide)⟩

/-- C3 counterexample: a document on which `paginate` emits a text page of
2001 characters, one more than `CHARS_PER_PAGE`: its only space sits exactly
at the hard window limit, the backward search finds it there, and the page
extends one character past the limit to include it. -/
theorem page_size_counterexample :
    ∃ p ∈ paginate overflowDoc none none, CHARS_PER_PAGE < p.length := by
  refine ⟨(overflowDoc.drop 0).take (2001 - 0), ?_, ?_⟩
  · rw [paginate_overflowDoc, overflowDoc_pages]
    exact List.mem_cons_self _ _
  · rw [overflowDoc_first_page_long]
    norm_num [CHARS_PER_PAGE]

/-- C2 witness: a concrete section that splits into two pages, at whose
internal boundary the theorem applies. -/
theorem page_boundary_break_witness :
    0 + 1 < (paginateSectionT twoPageDoc).length ∧
    ((∃ c, ((paginateSectionT twoPageDoc).getD 0 []).getLast? = some c ∧ (c = ' ' ∨ c = '\n')) ∨
      (((paginateSectionT twoPageDoc).getD 0 []).length = CHARS_PER_PAGE ∧
        ∀ j, pageStart (paginateSectionT twoPageDoc) 0 < j →
          j ≤ pageStart (paginateSectionT twoPageDoc) 0 + CHARS_PER_PAGE →
            twoPageDoc.get? j ≠ some ' ' ∧ twoPageDoc.get? j ≠ some '\n')) :=
  ⟨by rw [twoPageDoc_two_pages]; norm_num,
   page_boundary_break twoPageDoc 0 (by rw [twoPageDoc_two_pages]; norm_num)⟩

/-! ### Claim C4 -/

/-- C4: pagination is total: the splitting loop terminates whenever the
fuel covers the distance from the cursor to the end of the section (the
cursor strictly advances each iteration), the page list of any call to
`paginate` is non-empty, and the empty document yields exactly the one
non-empty fallback page. -/
theorem paginate_total :
    (∀ (s : List Char) (pos fuel : Nat), s.length ≤ pos + fuel →
        (paginateSection fuel s pos).isSome = true) ∧
    (∀ (D : List Char) (f b : Option (List Char)), 1 ≤ (paginate D f b).length) ∧
    paginate [] none none = [fallbackText] ∧ 0 < fallbackText.length := by
  have hbase : ∀ (G : List (List Char)), 1 ≤ (if G.isEmpty then [fallbackText] else G).length := by
    intro G
    split
    · simp
    · rename_i hG
      rw [Bool.not_eq_true] at hG
      rw [List.isEmpty_eq_false] at hG
      exact List.length_pos.mpr hG
  refine ⟨fun s pos fuel h => paginateSection_isSome fuel s pos (by omega), ?_, by decide, by decide⟩
  intro D f b
  unfold paginate
  simp only
  set X := (((splitSections D).filter fun sec => !(jsTrim sec).isEmpty).map
    paginateSectionT).flatten with hX
  set A := if D.isEmpty = true then ([] : List (List Char)) else X with hA
  set B := if A.isEmpty = true then [fallbackText] else A with hB
  have h1 : 1 ≤ B.length := by
    rw [hB]
    exact hbase A
  rcases f with _ | u <;> rcases b with _ | v
  · exact h1
  · show 1 ≤ (if v.isEmpty = true then B else B ++ [imageMarker ++ v]).length
    split
    · exact h1
    · simp only [List.length_append, List.length_cons, List.length_nil]
      omega
  · show 1 ≤ (if u.isEmpty = true then B else (imageMarker ++ u) :: B).length
    split
    · exact h1
    · simp only [List.length_cons]
      omega
  · show 1 ≤ (if v.isEmpty = true then (if u.isEmpty = true then B else (imageMarker ++ u) :: B)
        else (if u.isEmpty = true then B else (imageMarker ++ u) :: B) ++ [imageMarker ++ v]).length
    split <;> split
    · exact h1
    · simp only [List.length_cons]
      omega
    · simp only [List.length_append, List.length_cons, List.length_nil]
      omega
    · simp only [List.length_append, List.length_cons, List.length_nil]
      omega

/-- C4 witness: the loop is total on a concrete section. -/
theorem paginate_total_witness :
    (["a"].length ≤ 0 + 2) ∧ (paginateSection 2 [' ', 'x'] 0).isSome = true :=
  ⟨by decide, paginate_total.1 [' ', 'x'] 0 2 (by decide)⟩

/-! ### Claim C5 -/

/-- C5: a non-empty front cover URL prepends exactly one image-sentinel
page, a non-empty back cover URL appends exactly one, both together give
two more pages than the text pages alone, and the page order is front
cover, text pages, back cover. -/
theorem cover_pages (D fu bu : List Char) (hfu : fu ≠ []) (hbu : bu ≠ []) :
    paginate D (some fu) none = (imageMarker ++ fu) :: paginate D none none ∧
    paginate D none (some bu) = paginate D none none ++ [imageMarker ++ bu] ∧
    paginate D (some fu) (some bu) =
      (imageMarker ++ fu) :: paginate D none none ++ [imageMarker ++ bu] ∧
    (paginate D (some fu) (some bu)).length = (paginate D none none).length + 2 ∧
    isImagePage (imageMarker ++ fu) = true ∧ isImagePage (imageMarker ++ bu) = true := by
  have hfuE : fu.isEmpty = false := by rw [List.isEmpty_eq_false]; exact hfu
  have hbuE : bu.isEmpty = false := by rw [List.isEmpty_eq_false]; exact hbu
  have himg : ∀ u : List Char, isImagePage (imageMarker ++ u) = true := by
    intro u
    rw [isImagePage, List.isPrefixOf_iff_prefix]
    exact List.prefix_append _ _
  have hfn : paginate D (some fu) none = (imageMarker ++ fu) :: paginate D none none := by
    unfold paginate
    simp [hfuE]
  have hnb : paginate D none (some bu) = paginate D none none ++ [imageMarker ++ bu] := by
    unfold paginate
    simp [hbuE]
  have hfb : paginate D (some fu) (some bu) =
      (imageMarker ++ fu) :: paginate D none none ++ [imageMarker ++ bu] := by
    unfold paginate
    simp [hfuE, hbuE]
  refine ⟨hfn, hnb, hfb, ?_, himg fu, himg bu⟩
  rw [hfb]
  simp only [List.length_append, List.length_cons, List.length_nil]

/-- C5 witness: the cover layout at concrete inputs. -/
theorem cover_pages_witness :
    ("f").data ≠ [] ∧ ("b").data ≠ [] ∧
    (paginate ("x").data (some ("f").data) (some ("b").data)).length =
      (paginate ("x").data none none).length + 2 :=
  ⟨by decide, by decide,
    (cover_pages ("x").data ("f").data ("b").data (by decide) (by decide)).2.2.2.1⟩

/-! ### Claim C6 -/

/-- C6: starting from any in-range page index, every sequence of
navigation events keeps the index within `[0, totalPages - 1]`; at index 0
the left-arrow and Previous button do nothing, and at the last index the
right-arrow and Next button do nothing. -/
theorem navigation_bounded :
    (∀ (total : Nat) (events : List NavEvent) (cur : Nat), cur ≤ total - 1 →
        navRun total cur events ≤ total - 1) ∧
    (∀ total : Nat, navStep total 0 NavEvent.arrowLeft = 0 ∧
      navStep total 0 NavEvent.prevButton = 0 ∧
      navStep total (total - 1) NavEvent.arrowRight = total - 1 ∧
      navStep total (total - 1) NavEvent.nextButton = total - 1) := by
  constructor
  · have hstep : ∀ total cur e, cur ≤ total - 1 → navStep total cur e ≤ total - 1 := by
      intro total cur e h
      cases e <;> simp only [navStep] <;> split <;> omega
    intro total events
    induction events with
    | nil =>
      intro cur h
      simpa [navRun] using h
    | cons e es ih =>
      intro cur h
      rw [show navRun total cur (e :: es) = navRun total (navStep total cur e) es from rfl]
      exact ih _ (hstep _ _ _ h)
  · intro total
    refine ⟨by simp [navStep], by simp [navStep], by simp [navStep], by simp [navStep]⟩

/-- C6 witness: a concrete run stays in range. -/
theorem navigation_bounded_witness :
    (0 : Nat) ≤ 3 - 1 ∧
    navRun 3 0 [NavEvent.arrowRight, NavEvent.arrowRight, NavEvent.arrowRight,
      NavEvent.nextButton, NavEvent.arrowLeft, NavEvent.prevButton] ≤ 3 - 1 :=
  ⟨by decide, navigation_bounded.1 3 _ 0 (by decide)⟩

/-! ### Claim C7 -/

/-- C7: the Markdown export emits the raw document unchanged (hence the
exported text contains the document's substrings verbatim), and the file
name is the slugified title with extension: for title `My Book` it is
`my-book.md`. -/
theorem export_md_correct :
    (handleExportMd ("My Book").data ("## Chapter 1: Intro\n\nHello world").data).1 =
      ("## Chapter 1: Intro\n\nHello world").data ∧
    List.IsInfix ("Hello world").data
      (handleExportMd ("My Book").data ("## Chapter 1: Intro\n\nHello world").data).1 ∧
    (handleExportMd ("My Book").data ("## Chapter 1: Intro\n\nHello world").data).2 =
      ("my-book.md").data ∧
    (∀ t c : List Char, (handleExportMd t c).1 = c) :=
  ⟨by decide, ⟨("## Chapter 1: Intro\n\n").data, [], by decide⟩, by decide, fun t c => rfl⟩

/-! ### Claim C8 -/

/-- C8: the DOCX paragraph list is the title paragraph, then a subtitle
paragraph exactly when a (non-empty) subtitle is present, then an author
paragraph exactly when a (non-empty) author is present, then one paragraph
per document line in order: `## ` lines become stripped heading paragraphs,
other lines with non-blank trim become body paragraphs, blank lines
contribute nothing. -/
theorem docx_children_spec (title : List Char) (subtitle author : Option (List Char))
    (content : List Char) :
    docChildren title subtitle author content = docChildrenSpec title subtitle author content := by
  have hfold : ∀ (lines : List (List Char)) (init : List DocPara),
      lines.foldl (fun acc line =>
        if headingMarker.isPrefixOf line then acc ++ [⟨line.drop 3, some HeadingLevelT.HEADING_2⟩]
        else if (jsTrim line).isEmpty then acc
        else acc ++ [⟨line, none⟩]) init = init ++ lines.filterMap lineParagraph := by
    intro lines
    induction lines with
    | nil =>
      intro init
      simp
    | cons l ls ih =>
      intro init
      rw [List.foldl_cons]
      simp only [List.filterMap_cons, lineParagraph]
      by_cases h1 : headingMarker.isPrefixOf l = true
      · rw [if_pos h1, if_pos h1, ih]
        simp [List.append_assoc]
      · by_cases h2 : (jsTrim l).isEmpty = true
        · rw [if_neg h1, if_neg h1, if_pos h2, if_pos h2, ih]
        · rw [if_neg h1, if_neg h1, if_neg h2, if_neg h2, ih]
          simp [List.append_assoc]
  simp only [docChildren, docChildrenSpec]
  rw [hfold]
  rcases subtitle with _ | st <;> rcases author with _ | au <;> dsimp only
  · simp
  · split_ifs <;> simp
  · split_ifs <;> simp
  · split_ifs <;> simp

/-! ### Claim C9 -/

theorem genAllGo_fail (svc : GenService) (cont : Bool) :
    ∀ (chs : List Chapter) (i0 : Nat) (last : Option (List Char)) (d : Nat),
      d < chs.length →
      (∀ j, j < d → ∀ ch, chs.get? j = some ch → ch.status ≠ ChapterStatus.done →
        ∀ t l, ∃ c, svc (i0 + j) t l = Except.ok c) →
      (∀ ch, chs.get? d = some ch → ch.status ≠ ChapterStatus.done) →
      (∀ t l, svc (i0 + d) t l = Except.error ()) →
      (genAllGo svc cont chs i0 last).2.1 = some (i0 + d) ∧
      (∀ j ∈ (genAllGo svc cont chs i0 last).2.2, j ≤ i0 + d) ∧
      (genAllGo svc cont chs i0 last).2.2.count (i0 + d) = 1 ∧
      (genAllGo svc cont chs i0 last).1.get? d =
        (chs.get? d).map (fun ch => { ch with status := ChapterStatus.pending }) ∧
      (∀ j, d < j → (genAllGo svc cont chs i0 last).1.get? j = chs.get? j) ∧
      (∀ j, j < d → ∀ ch, (genAllGo svc cont chs i0 last).1.get? j = some ch →
        ch.status = ChapterStatus.done) := by
  intro chs
  induction chs with
  | nil =>
    intro i0 last d hd _ _ _
    simp at hd
  | cons ch rest ih =>
    intro i0 last d hd hprev hcur hfail
    cases d with
    | zero =>
      have hchnd : ch.status ≠ ChapterStatus.done := hcur ch rfl
      have hE : svc i0 ch.title last = Except.error () := by
        have h := hfail ch.title last
        rwa [Nat.add_zero] at h
      simp only [genAllGo, if_neg hchnd, hE]
      refine ⟨by rw [Nat.add_zero], ?_, ?_, rfl, ?_, ?_⟩
      · intro j hj
        simp only [List.mem_singleton] at hj
        omega
      · rw [Nat.add_zero]
        simp
      · intro j hj
        cases j with
        | zero => omega
        | succ k => rfl
      · intro j hj
        omega
    | succ d =>
      have hd' : d < rest.length := by
        simp only [List.length_cons] at hd
        omega
      by_cases hdone : ch.status = ChapterStatus.done
      · have IH := ih (i0 + 1)
          (if cont then some ch.content else none) d hd'
          (fun j hj ch' hch' hnd t l => by
            have h := hprev (j + 1) (by omega) ch' hch' hnd t l
            rwa [show i0 + (j + 1) = i0 + 1 + j by omega] at h)
          (fun ch' hch' => hcur ch' hch')
          (fun t l => by
            have h := hfail t l
            rwa [show i0 + (d + 1) = i0 + 1 + d by omega] at h)
        simp only [genAllGo, if_pos hdone]
        have heq : i0 + 1 + d = i0 + (d + 1) := by omega
        refine ⟨by rw [← heq]; exact IH.1, ?_, ?_, IH.2.2.2.1, ?_, ?_⟩
        · intro j hj
          have := IH.2.1 j hj
          omega
        · rw [← heq]
          exact IH.2.2.1
        · intro j hj
          cases j with
          | zero => omega
          | succ k =>
            have := IH.2.2.2.2.1 k (by omega)
            exact this
        · intro j hj ch' hch'
          cases j with
          | zero =>
            cases hch'
            exact hdone
          | succ k =>
            exact IH.2.2.2.2.2 k (by omega) ch' hch'
      · obtain ⟨c, hc⟩ := hprev 0 (by omega) ch rfl hdone ch.title last
        rw [Nat.add_zero] at hc
        have IH := ih (i0 + 1)
          (if cont then some c else none) d hd'
          (fun j hj ch' hch' hnd t l => by
            have h := hprev (j + 1) (by omega) ch' hch' hnd t l
            rwa [show i0 + (j + 1) = i0 + 1 + j by omega] at h)
          (fun ch' hch' => hcur ch' hch')
          (fun t l => by
            have h := hfail t l
            rwa [show i0 + (d + 1) = i0 + 1 + d by omega] at h)
        simp only [genAllGo, if_neg hdone, hc]
        have heq : i0 + 1 + d = i0 + (d + 1) := by omega
        refine ⟨by rw [← heq]; exact IH.1, ?_, ?_, IH.2.2.2.1, ?_, ?_⟩
        · intro j hj
          rcases List.mem_cons.mp hj with rfl | hj'
          · omega
          · have := IH.2.1 j hj'
            omega
        · rw [List.count_cons]
          have hne : (i0 == i0 + (d + 1)) = false := by
            simp only [beq_eq_false_iff_ne, ne_eq]
            omega
          rw [hne]
          rw [← heq]
          simpa using IH.2.2.1
        · intro j hj
          cases j with
          | zero => omega
          | succ k =>
            exact IH.2.2.2.2.1 k (by omega)
        · intro j hj ch' hch'
          cases j with
          | zero =>
            cases hch'
            rfl
          | succ k =>
            exact IH.2.2.2.2.2 k (by omega) ch' hch'

/-- C9 (amended): when the generation request for chapter `i` fails (all
earlier non-done chapters having succeeded), `handleGenerateAllChapters`
surfaces the error naming chapter `i`, issues no request for any chapter
after `i` and requests `i` exactly once (no retry), returns chapter `i` to
pending with its content unchanged, leaves every chapter after `i`
untouched, and leaves every chapter before `i` in status done (chapters
that were pending before `i` have been generated by the preceding
successful steps). -/
theorem generate_all_halts (svc : GenService) (cont : Bool) (chs : List Chapter) (i : Nat)
    (hi : i < chs.length)
    (hprev : ∀ j, j < i → ∀ ch, chs.get? j = some ch → ch.status ≠ ChapterStatus.done →
      ∀ t l, ∃ c, svc j t l = Except.ok c)
    (hcur : ∀ ch, chs.get? i = some ch → ch.status ≠ ChapterStatus.done)
    (hfail : ∀ t l, svc i t l = Except.error ()) :
    (handleGenerateAllChapters svc cont chs).2.1 = some i ∧
    (∀ j ∈ (handleGenerateAllChapters svc cont chs).2.2, j ≤ i) ∧
    (handleGenerateAllChapters svc cont chs).2.2.count i = 1 ∧
    (handleGenerateAllChapters svc cont chs).1.get? i =
      (chs.get? i).map (fun ch => { ch with status := ChapterStatus.pending }) ∧
    (∀ j, i < j → (handleGenerateAllChapters svc cont chs).1.get? j = chs.get? j) ∧
    (∀ j, j < i → ∀ ch, (handleGenerateAllChapters svc cont chs).1.get? j = some ch →
      ch.status = ChapterStatus.done) := by
  have h := genAllGo_fail svc cont chs 0 none i hi
    (fun j hj ch hch hnd t l => by simpa using hprev j hj ch hch hnd t l)
    hcur
    (fun t l => by simpa using hfail t l)
  simpa [handleGenerateAllChapters] using h

/-- C9 counterexample: with two pending chapters where the first request
succeeds and the second fails, the run fails at chapter 1, yet chapter 0's
content and status have changed (it was generated and marked done), so
"the content and status of every other chapter are unchanged" is false as
stated. -/
theorem generate_all_halts_counterexample :
    (handleGenerateAllChapters
        (fun i _ _ => if i = 0 then Except.ok (("x").data) else Except.error ()) false
        [⟨("c1").data, [], ChapterStatus.pending⟩, ⟨("c2").data, [], ChapterStatus.pending⟩]).2.1 =
      some 1 ∧
    (handleGenerateAllChapters
        (fun i _ _ => if i = 0 then Except.ok (("x").data) else Except.error ()) false
        [⟨("c1").data, [], ChapterStatus.pending⟩, ⟨("c2").data, [], ChapterStatus.pending⟩]).1.get? 0 ≠
      some ⟨("c1").data, [], ChapterStatus.pending⟩ := by
  refine ⟨by decide, by decide⟩

/-- C9 witness: a one-chapter book whose only request fails. -/
theorem generate_all_halts_witness :
    (0 < ([⟨("t").data, [], ChapterStatus.pending⟩] : List Chapter).length) ∧
    (handleGenerateAllChapters (fun _ _ _ => Except.error ()) false
      [⟨("t").data, [], ChapterStatus.pending⟩]).2.1 = some 0 :=
  ⟨by decide,
    (generate_all_halts (fun _ _ _ => Except.error ()) false
      [⟨("t").data, [], ChapterStatus.pending⟩] 0 (by decide)
      (fun j hj => absurd hj (by omega))
      (fun ch hch => by
        cases hch
        decide)
      (fun t l => rfl)).1⟩

/-! ### Claim C10 -/

/-- C10: pages are distinguished only by the literal text marker `IMAGE:`:
a document whose text begins with `IMAGE:` produces a text page that the
viewer and the PDF export treat as an image page, and its page list
coincides with that of a different document supplied with a front cover,
so the tagging of pages is not injective. -/
theorem image_sentinel_collision :
    paginate ("IMAGE:abc\n## Hi").data none none =
      paginate ("## Hi").data (some ("abc\n").data) none ∧
    (paginate ("IMAGE:abc\n## Hi").data none none).get? 0 = some (("IMAGE:abc\n").data) ∧
    isImagePage (("IMAGE:abc\n").data) = true := by
  refine ⟨by decide, by decide, by decide⟩

end BookGen
